import Mathlib

/-!
Shallow embedding of the branch-cleanup subsystem of BlackRoad-OS/blackroad-tools:
`src/branch-cleanup/backup-and-delete.ts`, `src/branch-cleanup/reporters.ts`,
the orchestrator (`CleanupOrchestrator`), the GitHub client (`GitHubQLClient`)
and the permissions handler (`PermissionsHandler`).

Pure decision logic is translated directly.  Network calls are modelled by
passing their results (or a small explicit remote state) as arguments; each
definition notes the source symbol it embeds.
-/

namespace BranchCleanup

/-- `ActionTaken` from reporters.ts (string union, here a closed enumeration). -/
inductive ActionTaken where
  | Deleted
  | SkippedUnsafe
  | SkippedTooRecent
  | SkippedProtected
  | SkippedExcluded
  | ProtectedRuleBlocked
  | TokenInsufficient
  | AlreadyDeleted
  | Error
  deriving DecidableEq, Repr

/-- `DeletionResult` from backup-and-delete.ts: a tagged union of a status plus
either a backup tag (on `Deleted`) or an error message. -/
inductive DeletionResult where
  | Deleted (backupTag : String)
  | ProtectedRuleBlocked (error : String)
  | TokenInsufficient (error : String)
  | AlreadyDeleted (error : String)
  | Error (error : String)
  deriving DecidableEq, Repr

/-- The `status` discriminant of a `DeletionResult`, as used by
`processBranch` (`result.status as ActionTaken`). -/
def DeletionResult.status : DeletionResult → ActionTaken
  | .Deleted _ => .Deleted
  | .ProtectedRuleBlocked _ => .ProtectedRuleBlocked
  | .TokenInsufficient _ => .TokenInsufficient
  | .AlreadyDeleted _ => .AlreadyDeleted
  | .Error _ => .Error

/-- `pat` is a prefix of `s` (on character lists, so that proofs can evaluate). -/
def charsIsPrefixOf : List Char → List Char → Bool
  | [], _ => true
  | _ :: _, [] => false
  | c :: cs, d :: ds => c == d && charsIsPrefixOf cs ds

/-- `pat` occurs as a contiguous substring of the character list. -/
def charsContains (pat : List Char) : List Char → Bool
  | [] => charsIsPrefixOf pat []
  | c :: rest => charsIsPrefixOf pat (c :: rest) || charsContains pat rest

/-- JavaScript `s.includes(pat)`. -/
def containsSubstr (s pat : String) : Bool :=
  charsContains pat.data s.data

/-- JavaScript `s.toLowerCase()`, character by character. -/
def lowerString (s : String) : String :=
  ⟨s.data.map Char.toLower⟩

/-- `BranchBackupAndDelete.handleDeletionError` (backup-and-delete.ts lines
98-124).  `status` is the error's HTTP status, with 0 standing for an absent
status field (`error.status || 0`). -/
def handleDeletionError (status : Nat) (message : String) : DeletionResult :=
  if status = 403 then
    if containsSubstr (lowerString message) "protected" then
      .ProtectedRuleBlocked message
    else if containsSubstr (lowerString message) "resource not accessible" then
      .TokenInsufficient message
    else
      .TokenInsufficient message
  else if status = 422 then
    .AlreadyDeleted "Branch reference not found"
  else if status = 404 then
    .AlreadyDeleted "Branch not found"
  else
    .Error message

/-- The deletion-failure classification exactly as the spec words it
(spec §4.3): 403 with a case-insensitive "protected" hint, any other 403,
422 or 404, anything else.  Used only to compare against
`handleDeletionError`. -/
def specDeletionClassification (status : Nat) (message : String) : ActionTaken :=
  if status = 403 ∧ containsSubstr (lowerString message) "protected" then
    .ProtectedRuleBlocked
  else if status = 403 then
    .TokenInsufficient
  else if status = 422 ∨ status = 404 then
    .AlreadyDeleted
  else
    .Error

/-- `BranchInfo` from ghql.ts: live snapshot returned by
`GitHubQLClient.checkBranch`.  `isProtected` embeds the source field
`protected` (a Lean keyword). -/
structure BranchInfo where
  name : String
  isProtected : Bool
  branchExists : Bool
  deriving DecidableEq, Repr

/-- `BranchCandidate` from the orchestrator (part_009 lines 34-39). -/
structure BranchCandidate where
  branchName : String
  sha : String
  prNumber : Option Nat
  mergedAt : Option String
  deriving DecidableEq, Repr

/-- `MergedPR` as returned by `GitHubQLClient.getMergedPRs` (ghql.ts). -/
structure MergedPR where
  number : Nat
  mergedAt : Option String
  headRefName : String
  headRefOid : String
  baseRefName : String
  deriving DecidableEq, Repr

/-- `CleanupRecord` from reporters.ts.  `isProtected` embeds the source field
`protected`. -/
structure CleanupRecord where
  org : String
  repo : String
  branch : String
  headSha : String
  mergedPr : Option Nat
  mergedAt : Option String
  defaultBranch : String
  isProtected : Bool
  actionTaken : ActionTaken
  backupTag : String
  error : String
  deriving DecidableEq, Repr

/-- The `safety` block of the orchestrator's `Config` together with the
pattern lists (part_009 lines 13-32), camel-cased. -/
structure Config where
  branchPatterns : List String
  excludePatterns : List String
  createBackupTag : Bool
  backupTagPrefix : String
  backupTtlDays : Nat
  minimumAgeDays : Int
  deriving DecidableEq, Repr

/-- Split a pattern at its first `*` (JS `pattern.replace('*', '.*')` rewrites
only the first occurrence). -/
def splitAtStar : List Char → List Char × Option (List Char)
  | [] => ([], none)
  | c :: cs =>
      if c == '*' then ([], some cs)
      else
        let r := splitAtStar cs
        (c :: r.1, r.2)

/-- `a` is a suffix of `s`. -/
def charsIsSuffixOf (a s : List Char) : Bool :=
  charsIsPrefixOf a.reverse s.reverse

/-- The pattern test of `matchesPatterns` / `isExcluded` (part_009 lines
267-279): the source builds `new RegExp('^' + pattern.replace('*', '.*') + '$')`
and tests the branch name.  This embedding covers the configuration patterns
actually in use — at most one `*` and no other regex metacharacters: the part
before the first `*` must be a prefix, the part after it a suffix, and the two
must not overlap; without a `*` the match is exact. -/
def globMatch (pattern s : String) : Bool :=
  match splitAtStar pattern.data with
  | (_, none) => pattern == s
  | (before, some afterStar) =>
      charsIsPrefixOf before s.data &&
        charsIsSuffixOf afterStar s.data &&
        before.length + afterStar.length ≤ s.data.length

/-- `CleanupOrchestrator.matchesPatterns` (part_009 lines 267-272). -/
def matchesPatterns (cfg : Config) (branchName : String) : Bool :=
  cfg.branchPatterns.any (fun pattern => globMatch pattern branchName)

/-- `CleanupOrchestrator.isExcluded` (part_009 lines 274-279). -/
def isExcluded (cfg : Config) (branchName : String) : Bool :=
  cfg.excludePatterns.any (fun pattern => globMatch pattern branchName)

/-- The candidate the orchestrator builds from a merged PR (part_009 lines
170-175). -/
def toCandidate (pr : MergedPR) : BranchCandidate :=
  { branchName := pr.headRefName
    sha := pr.headRefOid
    prNumber := some pr.number
    mergedAt := pr.mergedAt }

/-- The three `continue` filters of `findCandidates` (part_009 lines 152-166):
the PR targets the default branch, its head matches an include pattern, and
does not match an exclude pattern. -/
def eligiblePR (cfg : Config) (defaultBranch : String) (pr : MergedPR) : Bool :=
  pr.baseRefName == defaultBranch &&
    matchesPatterns cfg pr.headRefName &&
    !(isExcluded cfg pr.headRefName)

/-- The loop of `findCandidates` with the keys of its `Map` made explicit as
`seen` (part_009 lines 150-179): a PR is added only if eligible and its head
branch name has not been added yet — first occurrence wins, in insertion
order. -/
def findCandidatesAux (cfg : Config) (defaultBranch : String) :
    List MergedPR → List String → List BranchCandidate
  | [], _ => []
  | pr :: rest, seen =>
      if eligiblePR cfg defaultBranch pr && !(seen.contains pr.headRefName) then
        toCandidate pr ::
          findCandidatesAux cfg defaultBranch rest (pr.headRefName :: seen)
      else
        findCandidatesAux cfg defaultBranch rest seen

/-- `CleanupOrchestrator.findCandidates` (part_009 lines 144-180), as a
function of the merged-PR list returned by `getMergedPRs`. -/
def findCandidates (cfg : Config) (defaultBranch : String)
    (prs : List MergedPR) : List BranchCandidate :=
  findCandidatesAux cfg defaultBranch prs []

/-- JavaScript truthiness of `candidate.mergedAt : string | null`
(`if (candidate.mergedAt)`): false for `null` and for the empty string. -/
def truthyOptStr : Option String → Bool
  | none => false
  | some s => !s.data.isEmpty

/-- `'backupTag' in result ? result.backupTag : ''` (part_009 line 262). -/
def DeletionResult.backupTagOrEmpty : DeletionResult → String
  | .Deleted t => t
  | _ => ""

/-- `'error' in result ? result.error : ''` (part_009 line 263). -/
def DeletionResult.errorOrEmpty : DeletionResult → String
  | .Deleted _ => ""
  | .ProtectedRuleBlocked e => e
  | .TokenInsufficient e => e
  | .AlreadyDeleted e => e
  | .Error e => e

/-- `CleanupOrchestrator.processBranch` (part_009 lines 182-265).  Network
results are passed in: `branchInfo` is what `checkBranch` returned,
`ageInDays` is `dayjs().diff(mergedDate, 'days')` (computed only when
`mergedAt` is truthy; passed unconditionally here and ignored otherwise),
`reachable` is what `isBranchReachable` returned, and `deleteResult` is what
`backupAndDelete` would return.  The second component records whether
`backupAndDelete` — the only mutating call in this function — was invoked. -/
def processBranch (cfg : Config) (owner repo defaultBranch : String)
    (candidate : BranchCandidate) (branchInfo : BranchInfo)
    (ageInDays : Int) (reachable : Bool) (deleteResult : DeletionResult) :
    CleanupRecord × Bool :=
  let baseRecord : CleanupRecord :=
    { org := owner
      repo := repo
      branch := candidate.branchName
      headSha := candidate.sha
      mergedPr := candidate.prNumber
      mergedAt := candidate.mergedAt
      defaultBranch := defaultBranch
      isProtected := branchInfo.isProtected
      actionTaken := .Error
      backupTag := ""
      error := "" }
  if !branchInfo.branchExists then
    ({ baseRecord with actionTaken := .AlreadyDeleted, isProtected := false },
      false)
  else if branchInfo.isProtected then
    ({ baseRecord with actionTaken := .SkippedProtected }, false)
  else if truthyOptStr candidate.mergedAt &&
      decide (ageInDays < cfg.minimumAgeDays) then
    ({ baseRecord with
        actionTaken := .SkippedTooRecent
        error := s!"Only {ageInDays} days old" }, false)
  else if !reachable then
    ({ baseRecord with
        actionTaken := .SkippedUnsafe
        error := "Branch has commits not in default branch" }, false)
  else
    ({ baseRecord with
        actionTaken := deleteResult.status
        backupTag := deleteResult.backupTagOrEmpty
        error := deleteResult.errorOrEmpty }, true)

/-- The slice of remote state `backupAndDelete` touches for one branch:
whether the branch ref still exists and whether this run's backup tag ref
already exists. -/
structure GitState where
  branchExists : Bool
  tagRefExists : Bool
  deriving DecidableEq, Repr

/-- The error shape Octokit rejects with: an HTTP `status` and a `message`. -/
structure ApiError where
  status : Nat
  message : String
  deriving DecidableEq, Repr

/-- Modelled from the spec: the hosting-API collaborator (spec §5, §6, §7) —
creating an annotated tag object is content-addressed and succeeds. -/
def apiCreateTagObject (s : GitState) : Except ApiError Unit × GitState :=
  (.ok (), s)

/-- Modelled from the spec: the hosting-API collaborator (spec §5, §6, §7) —
"duplicate tag-creation fails harmlessly (name collision)": creating a ref
that already exists is a 422, otherwise the ref is created. -/
def apiCreateTagRef (s : GitState) : Except ApiError Unit × GitState :=
  if s.tagRefExists then
    (.error { status := 422, message := "Reference already exists" }, s)
  else
    (.ok (), { s with tagRefExists := true })

/-- Modelled from the spec: the hosting-API collaborator (spec §5, §6, §7) —
"422 or 404 (ref already gone)": deleting a missing ref is a 422, otherwise
the ref is deleted. -/
def apiDeleteBranchRef (s : GitState) : Except ApiError Unit × GitState :=
  if s.branchExists then
    (.ok (), { s with branchExists := false })
  else
    (.error { status := 422, message := "Reference does not exist" }, s)

/-- `branchName.replace(/\//g, '-')` (backup-and-delete.ts line 93): every
slash becomes a dash. -/
def sanitizeBranch (branchName : String) : String :=
  ⟨branchName.data.map (fun c => if c == '/' then '-' else c)⟩

/-- `BranchBackupAndDelete.getBackupTagName` (backup-and-delete.ts lines
92-96); `today` is `dayjs().format('YYYYMMDD')`. -/
def getBackupTagName (cfg : Config) (branchName today : String) : String :=
  cfg.backupTagPrefix ++ "/" ++ sanitizeBranch branchName ++ "/" ++ today

/-- `BranchBackupAndDelete.createBackupTag` (backup-and-delete.ts lines
54-82): create the annotated tag object, then the tag ref.  The `Nat` counts
the network calls issued. -/
def createBackupTag (cfg : Config) (branchName today : String) (s : GitState) :
    Except ApiError String × GitState × Nat :=
  let tagName := getBackupTagName cfg branchName today
  match apiCreateTagObject s with
  | (.error e, s1) => (.error e, s1, 1)
  | (.ok _, s1) =>
      match apiCreateTagRef s1 with
      | (.error e, s2) => (.error e, s2, 2)
      | (.ok _, s2) => (.ok tagName, s2, 2)

/-- `BranchBackupAndDelete.backupAndDelete` (backup-and-delete.ts lines
26-52): phase (a) backup tag (skipped or name-only under `dryRun`), phase (b)
ref deletion (skipped under `dryRun`); any raised `ApiError` is caught and
classified by `handleDeletionError`.  Returns the result, the remote state
after the call, and the number of network calls issued. -/
def backupAndDelete (cfg : Config) (branchName : String) (dryRun : Bool)
    (today : String) (s : GitState) : DeletionResult × GitState × Nat :=
  let phaseA : Except ApiError String × GitState × Nat :=
    if cfg.createBackupTag && !dryRun then
      createBackupTag cfg branchName today s
    else if cfg.createBackupTag && dryRun then
      (.ok (getBackupTagName cfg branchName today), s, 0)
    else
      (.ok "", s, 0)
  match phaseA with
  | (.error e, s1, n1) => (handleDeletionError e.status e.message, s1, n1)
  | (.ok backupTag, s1, n1) =>
      if !dryRun then
        match apiDeleteBranchRef s1 with
        | (.error e, s2) => (handleDeletionError e.status e.message, s2, n1 + 1)
        | (.ok _, s2) => (.Deleted backupTag, s2, n1 + 1)
      else
        (.Deleted backupTag, s1, n1)

/-- `ReportSummary` from reporters.ts; the JS objects `byStatus` and `byRepo`
are total count functions here (an absent key reads as 0). -/
@[ext]
structure ReportSummary where
  totalBranches : Nat
  deleted : Nat
  skipped : Nat
  errors : Nat
  byStatus : ActionTaken → Nat
  byRepo : String → Nat

/-- The `${record.org}/${record.repo}` key of `byRepo` (reporters.ts line
78). -/
def repoKey (r : CleanupRecord) : String := r.org ++ "/" ++ r.repo

/-- One iteration of the `getSummary` loop (reporters.ts lines 70-92). -/
def summaryStep (summary : ReportSummary) (r : CleanupRecord) : ReportSummary :=
  { summary with
    byStatus := fun a =>
      if a = r.actionTaken then summary.byStatus a + 1 else summary.byStatus a
    byRepo := fun k =>
      if k = repoKey r then summary.byRepo k + 1 else summary.byRepo k
    deleted :=
      if r.actionTaken = .Deleted then summary.deleted + 1 else summary.deleted
    errors :=
      if r.actionTaken = .Deleted then summary.errors
      else if r.actionTaken = .Error then summary.errors + 1
      else summary.errors
    skipped :=
      if r.actionTaken = .Deleted then summary.skipped
      else if r.actionTaken = .Error then summary.skipped
      else summary.skipped + 1 }

/-- `Reporter.getSummary` (reporters.ts lines 60-95): a fold over the full
record list starting from the zero summary (with `totalBranches` set to the
record count, as in the source). -/
def getSummary (records : List CleanupRecord) : ReportSummary :=
  records.foldl summaryStep
    { totalBranches := records.length
      deleted := 0
      skipped := 0
      errors := 0
      byStatus := fun _ => 0
      byRepo := fun _ => 0 }

/-- `Reporter.addRecord` (reporters.ts lines 56-58): append. -/
def addRecord (records : List CleanupRecord) (r : CleanupRecord) :
    List CleanupRecord :=
  records ++ [r]

/-- `Reporter.hasErrors` (reporters.ts lines 218-220). -/
def hasErrors (records : List CleanupRecord) : Bool :=
  records.any (fun r => r.actionTaken == .Error)

/-- The outside world as `PermissionsHandler.createPermissionIssue` sees it
for one `(owner, repo)`: whether an open issue with the fixed title is
already there, whether the issue-list request throws, and whether the
issue-creation request throws. -/
structure IssueWorld where
  existingMatches : Bool
  listFails : Bool
  createFails : Bool
  deriving DecidableEq, Repr

/-- `PermissionsHandler.createPermissionIssue` (part_007 lines 63-116), with
the instance field `issueCache` threaded explicitly.  Returns the cache after
the call and the number of underlying issue-creation calls issued (the
`POST /repos/{owner}/{repo}/issues` request, attempted or not).  Both the
list request and the creation request sit in one `try`; a thrown error is
caught, logged, and — as in the source — the cache is NOT updated. -/
def createPermissionIssue (w : IssueWorld) (dryRun : Bool)
    (owner repo : String) (issueCache : List String) : List String × Nat :=
  let issueKey := owner ++ "/" ++ repo
  if issueCache.contains issueKey then
    (issueCache, 0)
  else if dryRun then
    (issueKey :: issueCache, 0)
  else if w.listFails then
    (issueCache, 0)
  else if w.existingMatches then
    (issueKey :: issueCache, 0)
  else if w.createFails then
    (issueCache, 1)
  else
    (issueKey :: issueCache, 1)

/-- One repository's pass through `CleanupOrchestrator.processRepo` (part_009
lines 89-142), as the orchestrator's `try` block sees it: the permission
check's `canDelete`, the setup phase (default-branch lookup plus merged-PR
enumeration, which may throw), and the per-candidate `processBranch` steps in
order, each either a record or a thrown error. -/
structure RepoScript where
  canDelete : Bool
  setup : Except String Unit
  steps : List (Except String CleanupRecord)

/-- The candidate loop of `processRepo` (part_009 lines 114-129): records are
added in order until a step throws; the throw aborts the loop and the
enclosing `catch` (line 139) only logs, adding nothing. -/
def collectUntilError : List (Except String CleanupRecord) → List CleanupRecord
  | [] => []
  | .ok r :: rest => r :: collectUntilError rest
  | .error _ :: _ => []

/-- The records one repository contributes to the `Reporter` under
`processRepo`: nothing without delete permission, nothing if setup throws,
otherwise the successful prefix of its steps. -/
def processRepoRecords (r : RepoScript) : List CleanupRecord :=
  if !r.canDelete then []
  else
    match r.setup with
    | .error _ => []
    | .ok _ => collectUntilError r.steps

/-- `CleanupOrchestrator.run` (part_009 lines 61-87): every repository's pass
runs under its own `catch`, so the reporter ends up with the concatenation of
the per-repository record lists. -/
def runRecords (repos : List RepoScript) : List CleanupRecord :=
  (repos.map processRepoRecords).flatten

/-- The process exit state chosen by `run` (part_009 lines 81-84): 1 iff some
record carries `Error`. -/
def exitCode (records : List CleanupRecord) : Nat :=
  if hasErrors records then 1 else 0

/-- The `mergedAt` sort key used to compare merge recency: ISO-8601
timestamps compare chronologically as strings; `null` sorts lowest. -/
def mergedKey : Option String → String
  | none => ""
  | some s => s

/-- Lexicographic order on character lists (executable; ISO-8601 timestamps
compare chronologically under it).  `String`'s own order is not used because
its comparison does not reduce inside the kernel. -/
def charsLe : List Char → List Char → Bool
  | [], _ => true
  | _ :: _, [] => false
  | c :: cs, d :: ds =>
      if c.toNat < d.toNat then true
      else if d.toNat < c.toNat then false
      else charsLe cs ds

/-- `a` merged no later than `b` (comparing `mergedAt` keys). -/
def mergedLe (a b : Option String) : Bool :=
  charsLe (mergedKey a).data (mergedKey b).data

/-! Concrete fixtures used by counterexamples and witnesses. -/

def cfgBase : Config :=
  { branchPatterns := ["*"]
    excludePatterns := []
    createBackupTag := true
    backupTagPrefix := "cleanup-backup"
    backupTtlDays := 30
    minimumAgeDays := 7 }

def cfgExcl : Config := { cfgBase with excludePatterns := ["release-*"] }

def cfgBot : Config := { cfgBase with branchPatterns := ["bot/*"] }

def prOld : MergedPR :=
  { number := 1
    mergedAt := some "2025-01-01T00:00:00Z"
    headRefName := "bot/update"
    headRefOid := "sha1"
    baseRefName := "main" }

def prNew : MergedPR :=
  { number := 2
    mergedAt := some "2025-06-01T00:00:00Z"
    headRefName := "bot/update"
    headRefOid := "sha2"
    baseRefName := "main" }

def candRel : BranchCandidate :=
  { branchName := "release-1"
    sha := "abc123"
    prNumber := some 5
    mergedAt := some "2025-01-01T00:00:00Z" }

def infoLive : BranchInfo :=
  { name := "release-1", isProtected := false, branchExists := true }

def recDeleted : CleanupRecord :=
  { org := "acme"
    repo := "web"
    branch := "bot/a"
    headSha := "s1"
    mergedPr := some 1
    mergedAt := some "2025-01-01T00:00:00Z"
    defaultBranch := "main"
    isProtected := false
    actionTaken := .Deleted
    backupTag := "cleanup-backup/bot-a/20260105"
    error := "" }

def recSkipped : CleanupRecord :=
  { recDeleted with branch := "bot/b", actionTaken := .SkippedProtected }

def recFailed : CleanupRecord :=
  { recDeleted with branch := "bot/c", actionTaken := .Error, error := "boom" }


/-! # Theorems -/

/-- C1: for every branch candidate evaluated by `processBranch`, if the
freshly fetched `BranchInfo` has `exists == false`, the recorded action is
`AlreadyDeleted` — whatever the protection flag, merge age, ancestry result
or patterns — and `backupAndDelete` is not invoked for that candidate. -/
theorem claim1_nonexistent_branch_already_deleted
    (cfg : Config) (owner repo defaultBranch : String)
    (candidate : BranchCandidate) (branchInfo : BranchInfo)
    (ageInDays : Int) (reachable : Bool) (deleteResult : DeletionResult)
    (hex : branchInfo.branchExists = false) :
    (processBranch cfg owner repo defaultBranch candidate branchInfo ageInDays
        reachable deleteResult).1.actionTaken = .AlreadyDeleted ∧
    (processBranch cfg owner repo defaultBranch candidate branchInfo ageInDays
        reachable deleteResult).2 = false := by
  simp [processBranch, hex]

/-- Witness for C1 at a concrete vanished branch. -/
theorem claim1_nonexistent_branch_already_deleted_witness :
    (processBranch cfgBase "acme" "web" "main" candRel
        ⟨"release-1", true, false⟩ 100 true (.Deleted "t")).1.actionTaken =
      .AlreadyDeleted ∧
    (processBranch cfgBase "acme" "web" "main" candRel
        ⟨"release-1", true, false⟩ 100 true (.Deleted "t")).2 = false :=
  claim1_nonexistent_branch_already_deleted cfgBase "acme" "web" "main"
    candRel ⟨"release-1", true, false⟩ 100 true (.Deleted "t") rfl

/-- C3: `handleDeletionError` classifies every failure raised during
`backupAndDelete` exactly as the spec words it: 403 with a case-insensitive
"protected" hint is `ProtectedRuleBlocked`, any other 403 is
`TokenInsufficient`, 422 or 404 is `AlreadyDeleted`, anything else is
`Error`. -/
theorem claim3_deletion_error_classification (status : Nat) (message : String) :
    (handleDeletionError status message).status =
      specDeletionClassification status message := by
  by_cases h403 : status = 403 <;>
    by_cases hp : containsSubstr (lowerString message) "protected" = true <;>
      by_cases h422 : status = 422 <;>
        by_cases h404 : status = 404 <;>
          simp_all [handleDeletionError, specDeletionClassification,
            DeletionResult.status]

/-- C9: when a candidate's `mergedAt` is `null`, the minimum-age gate is
skipped: an existing, unprotected candidate with a safe ancestry result goes
straight to `backupAndDelete`, whatever `minimum_age_days` and whatever the
age value would have been. -/
theorem claim9_null_mergedAt_skips_age_gate
    (cfg : Config) (owner repo defaultBranch : String)
    (candidate : BranchCandidate) (branchInfo : BranchInfo)
    (ageInDays : Int) (deleteResult : DeletionResult)
    (hm : candidate.mergedAt = none)
    (hex : branchInfo.branchExists = true)
    (hp : branchInfo.isProtected = false) :
    (processBranch cfg owner repo defaultBranch candidate branchInfo ageInDays
        true deleteResult).2 = true ∧
    (processBranch cfg owner repo defaultBranch candidate branchInfo ageInDays
        true deleteResult).1.actionTaken = deleteResult.status := by
  simp [processBranch, hm, hex, hp, truthyOptStr]

/-- Witness for C9: a candidate with no merge timestamp, age gate
configuration notwithstanding (age value 0 < minimum 7), is handed to
`backupAndDelete`. -/
theorem claim9_null_mergedAt_skips_age_gate_witness :
    (processBranch cfgBase "acme" "web" "main"
        { branchName := "bot/x", sha := "s", prNumber := none, mergedAt := none }
        ⟨"bot/x", false, true⟩ 0 true (.Deleted "t")).2 = true ∧
    (processBranch cfgBase "acme" "web" "main"
        { branchName := "bot/x", sha := "s", prNumber := none, mergedAt := none }
        ⟨"bot/x", false, true⟩ 0 true (.Deleted "t")).1.actionTaken =
      DeletionResult.status (.Deleted "t") :=
  claim9_null_mergedAt_skips_age_gate cfgBase "acme" "web" "main"
    { branchName := "bot/x", sha := "s", prNumber := none, mergedAt := none }
    ⟨"bot/x", false, true⟩ 0 (.Deleted "t") rfl rfl rfl

/-- C6: `backupAndDelete` with `dryRun = true` issues no network call and
leaves the remote state untouched, and — when `create_backup_tag` is enabled
— returns `Deleted` with the deterministic tag name
`<backup_tag_prefix>/<branch with every slash replaced by a dash>/<YYYYMMDD>`. -/
theorem claim6_dry_run_pure_and_deterministic
    (cfg : Config) (branchName today : String) (s : GitState) :
    (backupAndDelete cfg branchName true today s).2 = (s, 0) ∧
    (cfg.createBackupTag = true →
      (backupAndDelete cfg branchName true today s).1 =
        .Deleted (cfg.backupTagPrefix ++ "/" ++
          String.mk (branchName.data.map (fun c => if c == '/' then '-' else c))
          ++ "/" ++ today)) := by
  cases hc : cfg.createBackupTag <;>
    simp [backupAndDelete, hc, getBackupTagName, sanitizeBranch]

/-- Witness for C6: a dry run over `feat/x` with the fixture configuration
touches nothing and names the tag `cleanup-backup/feat-x/20261011`. -/
theorem claim6_dry_run_pure_and_deterministic_witness :
    (backupAndDelete cfgBase "feat/x" true "20261011" ⟨true, false⟩).2 =
      (⟨true, false⟩, 0) ∧
    (backupAndDelete cfgBase "feat/x" true "20261011" ⟨true, false⟩).1 =
      .Deleted ("cleanup-backup" ++ "/" ++
        String.mk ("feat/x".data.map (fun c => if c == '/' then '-' else c))
        ++ "/" ++ "20261011") :=
  ⟨(claim6_dry_run_pure_and_deterministic cfgBase "feat/x" "20261011"
      ⟨true, false⟩).1,
    (claim6_dry_run_pure_and_deterministic cfgBase "feat/x" "20261011"
      ⟨true, false⟩).2 rfl⟩

/-- C5: invoking `backupAndDelete` twice (live, not dry-run) on a branch that
is already deleted yields `AlreadyDeleted` on both invocations, never
`Error`: on the first pass the ref deletion 422s harmlessly, on the second
pass the duplicate backup-tag ref creation 422s harmlessly, and both 422s
classify as `AlreadyDeleted`. -/
theorem claim5_backup_and_delete_idempotent_on_gone_branch
    (cfg : Config) (branchName today : String) (s : GitState)
    (h : s.branchExists = false) :
    ((backupAndDelete cfg branchName false today s).1).status =
      .AlreadyDeleted ∧
    ((backupAndDelete cfg branchName false today
        (backupAndDelete cfg branchName false today s).2.1).1).status =
      .AlreadyDeleted := by
  rcases s with ⟨be, te⟩
  subst h
  cases hc : cfg.createBackupTag <;> cases te <;>
    simp [backupAndDelete, createBackupTag, apiCreateTagObject,
      apiCreateTagRef, apiDeleteBranchRef, handleDeletionError,
      DeletionResult.status, hc]

/-- Witness for C5 on a concrete gone branch with backups enabled. -/
theorem claim5_backup_and_delete_idempotent_on_gone_branch_witness :
    ((backupAndDelete cfgBase "bot/x" false "20261011" ⟨false, false⟩).1).status =
      .AlreadyDeleted ∧
    ((backupAndDelete cfgBase "bot/x" false "20261011"
        (backupAndDelete cfgBase "bot/x" false "20261011"
          ⟨false, false⟩).2.1).1).status = .AlreadyDeleted :=
  claim5_backup_and_delete_idempotent_on_gone_branch cfgBase "bot/x"
    "20261011" ⟨false, false⟩ rfl

/-- Every candidate emitted by the discovery loop has an exclusion-free
branch name: the seen-set-threaded version of the statement, proved by
induction over the merged-PR list. -/
theorem findCandidatesAux_not_excluded (cfg : Config) (d : String) :
    ∀ (prs : List MergedPR) (seen : List String) (c : BranchCandidate),
      c ∈ findCandidatesAux cfg d prs seen →
      isExcluded cfg c.branchName = false := by
  intro prs
  induction prs with
  | nil =>
      intro seen c hc
      simp [findCandidatesAux] at hc
  | cons pr rest ih =>
      intro seen c hc
      simp only [findCandidatesAux] at hc
      by_cases hcond :
          (eligiblePR cfg d pr && !(seen.contains pr.headRefName)) = true
      · rw [if_pos hcond] at hc
        rcases List.mem_cons.mp hc with h1 | h2
        · have he : eligiblePR cfg d pr = true :=
            (Bool.and_eq_true _ _).mp hcond |>.1
          simp only [eligiblePR, Bool.and_eq_true, Bool.not_eq_true'] at he
          subst h1
          simpa [toCandidate] using he.2
        · exact ih _ c h2
      · rw [if_neg hcond] at hc
        exact ih _ c hc

/-- C2 counterexample: a candidate whose name matches the configured exclude
pattern `release-*`, which exists, is unprotected, is 100 days old (minimum
7), and has a safe ancestry result, is handed to `backupAndDelete` by
`processBranch` and its recorded action is the deletion outcome — not
`SkippedExcluded`.  No exclude-pattern check is applied after the ancestry
gate. -/
theorem claim2_counterexample :
    isExcluded cfgExcl candRel.branchName = true ∧
    infoLive.branchExists = true ∧
    infoLive.isProtected = false ∧
    (processBranch cfgExcl "acme" "web" "main" candRel infoLive 100 true
        (.Deleted "cleanup-backup/release-1/20261011")).1.actionTaken =
      .Deleted ∧
    (processBranch cfgExcl "acme" "web" "main" candRel infoLive 100 true
        (.Deleted "cleanup-backup/release-1/20261011")).2 = true := by
  decide

/-- C2 as amended: exclude-pattern matching happens only during discovery —
`findCandidates` never yields a candidate whose name matches an exclude
pattern, and the per-candidate evaluation `processBranch` never assigns
`SkippedExcluded` to anything. -/
theorem claim2_amended_exclusion_only_at_discovery :
    (∀ (cfg : Config) (defaultBranch : String) (prs : List MergedPR)
        (c : BranchCandidate), c ∈ findCandidates cfg defaultBranch prs →
        isExcluded cfg c.branchName = false) ∧
    (∀ (cfg : Config) (owner repo defaultBranch : String)
        (candidate : BranchCandidate) (branchInfo : BranchInfo)
        (ageInDays : Int) (reachable : Bool) (deleteResult : DeletionResult),
        (processBranch cfg owner repo defaultBranch candidate branchInfo
            ageInDays reachable deleteResult).1.actionTaken ≠
          .SkippedExcluded) := by
  constructor
  · intro cfg d prs c hc
    exact findCandidatesAux_not_excluded cfg d prs [] c hc
  · intro cfg owner repo d candidate bi age reach dr
    unfold processBranch
    split_ifs <;> cases dr <;> simp [DeletionResult.status]

/-- Witness for C2-as-amended: a concrete discovered candidate is not
excluded, and a concrete evaluation does not yield `SkippedExcluded`. -/
theorem claim2_amended_exclusion_only_at_discovery_witness :
    isExcluded cfgBot (toCandidate prOld).branchName = false ∧
    (processBranch cfgBase "acme" "web" "main" candRel infoLive 100 true
        (.Deleted "t")).1.actionTaken ≠ .SkippedExcluded :=
  ⟨claim2_amended_exclusion_only_at_discovery.1 cfgBot "main" [prOld]
      (toCandidate prOld) (by decide),
    claim2_amended_exclusion_only_at_discovery.2 cfgBase "acme" "web" "main"
      candRel infoLive 100 true (.Deleted "t")⟩

/-- C7 counterexample: when the first `createPermissionIssue` call ends in a
creation failure (no open issue exists, the list request succeeds, the
creation request throws), the key is not cached, so a second call with the
same `(owner, repo)` attempts creation again — two underlying creation calls
in one run, refuting "at most one ... for every outcome of the first call". -/
theorem claim7_counterexample :
    (createPermissionIssue ⟨false, false, true⟩ false "acme" "web" []).2 +
      (createPermissionIssue ⟨false, false, true⟩ false "acme" "web"
        (createPermissionIssue ⟨false, false, true⟩ false "acme" "web"
          []).1).2 = 2 := by
  decide

/-- C7 as amended: calling `createPermissionIssue` twice with the same
`(owner, repo)` results in at most one underlying creation call provided the
first call does not end in a caught failure — that is, under dry-run, or
when neither the issue-list request nor the creation request throws
(covering the existing-open-issue and creation-success outcomes).  After a
caught failure the key is left uncached and creation may be re-attempted. -/
theorem claim7_amended_dedup_unless_failure
    (w : IssueWorld) (dryRun : Bool) (owner repo : String)
    (cache : List String)
    (h : dryRun = true ∨ (w.listFails = false ∧ w.createFails = false)) :
    (createPermissionIssue w dryRun owner repo cache).2 +
      (createPermissionIssue w dryRun owner repo
        (createPermissionIssue w dryRun owner repo cache).1).2 ≤ 1 := by
  by_cases hmem : (owner ++ "/" ++ repo) ∈ cache
  · simp [createPermissionIssue, hmem]
  · rcases h with h | ⟨h1, h2⟩
    · subst h
      simp [createPermissionIssue, hmem]
    · cases dryRun <;> cases hem : w.existingMatches <;>
        simp [createPermissionIssue, hmem, h1, h2, hem]

/-- Witness for C7-as-amended at a concrete creation-success run. -/
theorem claim7_amended_dedup_unless_failure_witness :
    (createPermissionIssue ⟨false, false, false⟩ false "acme" "web" []).2 +
      (createPermissionIssue ⟨false, false, false⟩ false "acme" "web"
        (createPermissionIssue ⟨false, false, false⟩ false "acme" "web"
          []).1).2 ≤ 1 :=
  claim7_amended_dedup_unless_failure ⟨false, false, false⟩ false "acme"
    "web" [] (Or.inr ⟨rfl, rfl⟩)

/-- The fold never touches `totalBranches`. -/
theorem foldl_summaryStep_totalBranches (l : List CleanupRecord)
    (init : ReportSummary) :
    (l.foldl summaryStep init).totalBranches = init.totalBranches := by
  induction l generalizing init with
  | nil => rfl
  | cons r t ih => simp [List.foldl_cons, ih, summaryStep]

/-- The fold counts `Deleted` records into `deleted`. -/
theorem foldl_summaryStep_deleted (l : List CleanupRecord)
    (init : ReportSummary) :
    (l.foldl summaryStep init).deleted =
      init.deleted + l.countP (fun r => r.actionTaken == .Deleted) := by
  induction l generalizing init with
  | nil => simp
  | cons r t ih =>
      simp only [List.foldl_cons, ih, List.countP_cons]
      by_cases hr : r.actionTaken = ActionTaken.Deleted <;>
        simp [summaryStep, hr] <;> omega

/-- The fold counts `Error` records into `errors`. -/
theorem foldl_summaryStep_errors (l : List CleanupRecord)
    (init : ReportSummary) :
    (l.foldl summaryStep init).errors =
      init.errors + l.countP (fun r => r.actionTaken == .Error) := by
  induction l generalizing init with
  | nil => simp
  | cons r t ih =>
      simp only [List.foldl_cons, ih, List.countP_cons]
      by_cases hr : r.actionTaken = ActionTaken.Deleted <;>
        by_cases he : r.actionTaken = ActionTaken.Error <;>
          simp_all [summaryStep] <;> omega

/-- The fold counts everything neither `Deleted` nor `Error` into
`skipped`. -/
theorem foldl_summaryStep_skipped (l : List CleanupRecord)
    (init : ReportSummary) :
    (l.foldl summaryStep init).skipped =
      init.skipped + l.countP (fun r =>
        !(r.actionTaken == .Deleted) && !(r.actionTaken == .Error)) := by
  induction l generalizing init with
  | nil => simp
  | cons r t ih =>
      simp only [List.foldl_cons, ih, List.countP_cons]
      by_cases hr : r.actionTaken = ActionTaken.Deleted <;>
        by_cases he : r.actionTaken = ActionTaken.Error <;>
          simp_all [summaryStep] <;> omega

/-- The fold counts records with a given action into `byStatus` at that
action. -/
theorem foldl_summaryStep_byStatus (l : List CleanupRecord)
    (init : ReportSummary) (a : ActionTaken) :
    (l.foldl summaryStep init).byStatus a =
      init.byStatus a + l.countP (fun r => r.actionTaken == a) := by
  induction l generalizing init with
  | nil => simp
  | cons r t ih =>
      simp only [List.foldl_cons, ih, List.countP_cons]
      by_cases hr : r.actionTaken = a
      · subst hr
        simp [summaryStep]
        omega
      · have hr2 : ¬(a = r.actionTaken) := fun h => hr h.symm
        simp [summaryStep, hr, hr2]

/-- The fold counts records with a given `org/repo` key into `byRepo` at
that key. -/
theorem foldl_summaryStep_byRepo (l : List CleanupRecord)
    (init : ReportSummary) (k : String) :
    (l.foldl summaryStep init).byRepo k =
      init.byRepo k + l.countP (fun r => repoKey r == k) := by
  induction l generalizing init with
  | nil => simp
  | cons r t ih =>
      simp only [List.foldl_cons, ih, List.countP_cons]
      by_cases hr : repoKey r = k
      · subst hr
        simp [summaryStep]
        omega
      · have hr2 : ¬(k = repoKey r) := fun h => hr h.symm
        simp [summaryStep, hr, hr2]

/-- Every record is deleted, skipped or errored — the three buckets
partition the record list. -/
theorem counts_partition (l : List CleanupRecord) :
    l.countP (fun r => r.actionTaken == .Deleted) +
      l.countP (fun r =>
        !(r.actionTaken == .Deleted) && !(r.actionTaken == .Error)) +
      l.countP (fun r => r.actionTaken == .Error) = l.length := by
  induction l with
  | nil => simp
  | cons r t ih =>
      simp only [List.countP_cons, List.length_cons]
      cases hr : r.actionTaken <;> simp [hr] <;> omega

/-- C8: `getSummary` is order-independent — permuting the record list yields
an identical `ReportSummary` (totals, per-status counts and per-repo counts)
— and `deleted + skipped + errors` always equals `totalBranches`. -/
theorem claim8_summary_perm_invariant_and_partition
    (l1 l2 : List CleanupRecord) (hp : l1.Perm l2) :
    getSummary l1 = getSummary l2 ∧
    ∀ l : List CleanupRecord,
      (getSummary l).deleted + (getSummary l).skipped +
        (getSummary l).errors = (getSummary l).totalBranches := by
  constructor
  · ext <;>
      simp [getSummary, foldl_summaryStep_totalBranches,
        foldl_summaryStep_deleted, foldl_summaryStep_errors,
        foldl_summaryStep_skipped, foldl_summaryStep_byStatus,
        foldl_summaryStep_byRepo, hp.length_eq, hp.countP_eq]
  · intro l
    simp [getSummary, foldl_summaryStep_totalBranches,
      foldl_summaryStep_deleted, foldl_summaryStep_errors,
      foldl_summaryStep_skipped, counts_partition]

/-- Witness for C8 on a concrete two-record swap. -/
theorem claim8_summary_perm_invariant_and_partition_witness :
    getSummary [recDeleted, recSkipped] = getSummary [recSkipped, recDeleted] ∧
    (getSummary [recDeleted, recSkipped, recFailed]).deleted +
      (getSummary [recDeleted, recSkipped, recFailed]).skipped +
      (getSummary [recDeleted, recSkipped, recFailed]).errors =
      (getSummary [recDeleted, recSkipped, recFailed]).totalBranches :=
  ⟨(claim8_summary_perm_invariant_and_partition [recDeleted, recSkipped]
      [recSkipped, recDeleted] (List.Perm.swap recSkipped recDeleted [])).1,
    (claim8_summary_perm_invariant_and_partition [recDeleted, recSkipped]
      [recSkipped, recDeleted] (List.Perm.swap recSkipped recDeleted [])).2
      [recDeleted, recSkipped, recFailed]⟩

/-- Truncation at the first thrown step: the records collected are exactly
those of the successful steps before the throw. -/
theorem collectUntilError_ok_prefix (pre : List CleanupRecord) (msg : String)
    (post : List (Except String CleanupRecord)) :
    collectUntilError (pre.map Except.ok ++ .error msg :: post) = pre := by
  induction pre with
  | nil => simp [collectUntilError]
  | cons r t ih => simp [collectUntilError, ih]

/-- Everything collected comes from an `ok` step of the script. -/
theorem mem_collectUntilError :
    ∀ (steps : List (Except String CleanupRecord)) (c : CleanupRecord),
      c ∈ collectUntilError steps → Except.ok c ∈ steps := by
  intro steps
  induction steps with
  | nil => intro c hc; simp [collectUntilError] at hc
  | cons s rest ih =>
      intro c hc
      cases s with
      | ok r =>
          simp only [collectUntilError, List.mem_cons] at hc
          rcases hc with h | h
          · subst h; exact List.mem_cons_self _ _
          · exact List.mem_cons_of_mem _ (ih c h)
      | error e => simp [collectUntilError] at hc

/-- A concrete repository script whose second candidate step throws. -/
def scriptA : RepoScript :=
  { canDelete := true
    setup := .ok ()
    steps := [.ok recDeleted, .error "boom", .ok recSkipped] }

/-- C10: an error escaping one repository's processing is caught at the
repository boundary — (i) a step that throws truncates that repository's
records to the successful prefix, (ii) the catch fabricates no record (every
record collected comes from an ok step, so no `Error` record is added for
the failure), (iii) the other repositories' contributions are unchanged, and
(iv) the exit code depends only on the records actually collected. -/
theorem claim10_repo_failure_isolated :
    (∀ (pre : List CleanupRecord) (msg : String)
        (post : List (Except String CleanupRecord)),
        processRepoRecords
          { canDelete := true, setup := .ok ()
            steps := pre.map Except.ok ++ .error msg :: post } = pre) ∧
    (∀ (r : RepoScript) (c : CleanupRecord),
        c ∈ processRepoRecords r → Except.ok c ∈ r.steps) ∧
    (∀ (l1 : List RepoScript) (r : RepoScript) (l2 : List RepoScript),
        runRecords (l1 ++ r :: l2) =
          runRecords l1 ++ processRepoRecords r ++ runRecords l2) ∧
    (∀ repos : List RepoScript,
        exitCode (runRecords repos) = 1 ↔
          ∃ c ∈ runRecords repos, c.actionTaken = .Error) := by
  refine ⟨?_, ?_, ?_, ?_⟩
  · intro pre msg post
    simp [processRepoRecords, collectUntilError_ok_prefix]
  · intro r c hc
    simp only [processRepoRecords] at hc
    by_cases hcan : r.canDelete
    · rw [if_neg (by simp [hcan])] at hc
      cases hs : r.setup with
      | error e => rw [hs] at hc; simp at hc
      | ok u => rw [hs] at hc; exact mem_collectUntilError r.steps c hc
    · rw [if_pos (by simp [hcan])] at hc
      simp at hc
  · intro l1 r l2
    simp [runRecords, List.append_assoc]
  · intro repos
    by_cases h : hasErrors (runRecords repos) = true
    · simp only [exitCode, if_pos h]
      simp only [hasErrors, List.any_eq_true, beq_iff_eq] at h
      simpa using h
    · simp only [exitCode, if_neg h]
      simp only [hasErrors, List.any_eq_true, beq_iff_eq] at h
      simp only [h]
      simp

/-- Witness for C10 on `scriptA`, whose second step throws. -/
theorem claim10_repo_failure_isolated_witness :
    processRepoRecords
      { canDelete := true, setup := .ok ()
        steps := [recDeleted].map Except.ok ++
          Except.error "boom" :: [.ok recSkipped] } = [recDeleted] ∧
    Except.ok recDeleted ∈ scriptA.steps ∧
    runRecords ([] ++ scriptA :: []) =
      runRecords [] ++ processRepoRecords scriptA ++ runRecords [] ∧
    (exitCode (runRecords [scriptA]) = 1 ↔
      ∃ c ∈ runRecords [scriptA], c.actionTaken = .Error) :=
  ⟨claim10_repo_failure_isolated.1 [recDeleted] "boom" [.ok recSkipped],
    claim10_repo_failure_isolated.2.1 scriptA recDeleted (by decide),
    claim10_repo_failure_isolated.2.2.1 [] scriptA [],
    claim10_repo_failure_isolated.2.2.2 [scriptA]⟩

/-- Discovery characterization: every emitted candidate's name is new
relative to `seen`, and the candidate is built from the FIRST eligible PR
with its head branch name, in list order. -/
theorem findCandidatesAux_find (cfg : Config) (d : String) :
    ∀ (prs : List MergedPR) (seen : List String) (c : BranchCandidate),
      c ∈ findCandidatesAux cfg d prs seen →
      c.branchName ∉ seen ∧
      ∃ pr, (prs.filter (eligiblePR cfg d)).find?
          (fun q => q.headRefName == c.branchName) = some pr ∧
        c = toCandidate pr := by
  intro prs
  induction prs with
  | nil =>
      intro seen c hc
      simp [findCandidatesAux] at hc
  | cons pr rest ih =>
      intro seen c hc
      simp only [findCandidatesAux] at hc
      by_cases hcond :
          (eligiblePR cfg d pr && !(seen.contains pr.headRefName)) = true
      · rw [if_pos hcond] at hc
        have he : eligiblePR cfg d pr = true :=
          ((Bool.and_eq_true _ _).mp hcond).1
        have hns : ¬ pr.headRefName ∈ seen := by
          have h2 := ((Bool.and_eq_true _ _).mp hcond).2
          simpa using h2
        rcases List.mem_cons.mp hc with h1 | h2
        · subst h1
          refine ⟨by simpa [toCandidate] using hns, pr, ?_, rfl⟩
          rw [List.filter_cons_of_pos he]
          exact List.find?_cons_of_pos _ (by simp [toCandidate])
        · obtain ⟨hni, pr2, hfind, hcand⟩ := ih (pr.headRefName :: seen) c h2
          have hne : c.branchName ≠ pr.headRefName := by
            intro h
            exact hni (h ▸ List.mem_cons_self _ _)
          refine ⟨fun hmem => hni (List.mem_cons_of_mem _ hmem), pr2, ?_, hcand⟩
          rw [List.filter_cons_of_pos he,
            List.find?_cons_of_neg _ (by simp [Ne.symm hne])]
          exact hfind
      · rw [if_neg hcond] at hc
        obtain ⟨hns, pr2, hfind, hcand⟩ := ih seen c hc
        refine ⟨hns, pr2, ?_, hcand⟩
        by_cases he : eligiblePR cfg d pr = true
        · have hseen : pr.headRefName ∈ seen := by
            by_contra hmm
            exact hcond (by simp [he, hmm])
          have hne : c.branchName ≠ pr.headRefName := fun h => hns (h ▸ hseen)
          rw [List.filter_cons_of_pos he,
            List.find?_cons_of_neg _ (by simp [Ne.symm hne])]
          exact hfind
        · rw [List.filter_cons_of_neg he]
          exact hfind

/-- Discovery emits pairwise-distinct branch names: candidates are
deduplicated by branch name. -/
theorem findCandidatesAux_names_nodup (cfg : Config) (d : String) :
    ∀ (prs : List MergedPR) (seen : List String),
      ((findCandidatesAux cfg d prs seen).map
        (fun c => c.branchName)).Nodup := by
  intro prs
  induction prs with
  | nil => intro seen; simp [findCandidatesAux]
  | cons pr rest ih =>
      intro seen
      simp only [findCandidatesAux]
      by_cases hcond :
          (eligiblePR cfg d pr && !(seen.contains pr.headRefName)) = true
      · rw [if_pos hcond]
        simp only [List.map_cons, List.nodup_cons]
        constructor
        · intro hmem
          obtain ⟨c, hc, hcn⟩ := List.mem_map.mp hmem
          obtain ⟨hni, _⟩ :=
            findCandidatesAux_find cfg d rest (pr.headRefName :: seen) c hc
          exact hni (hcn ▸ by simp [toCandidate] : c.branchName ∈ _)
        · exact ih (pr.headRefName :: seen)
      · rw [if_neg hcond]
        exact ih seen

/-- Discovery completeness: every eligible PR's head branch name either was
already taken or appears among the emitted candidates. -/
theorem findCandidatesAux_complete (cfg : Config) (d : String) :
    ∀ (prs : List MergedPR) (seen : List String) (pr : MergedPR),
      pr ∈ prs → eligiblePR cfg d pr = true →
      pr.headRefName ∈ seen ∨
      ∃ c ∈ findCandidatesAux cfg d prs seen,
        c.branchName = pr.headRefName := by
  intro prs
  induction prs with
  | nil => intro seen pr hmem; exact absurd hmem (List.not_mem_nil _)
  | cons q rest ih =>
      intro seen pr hmem he
      simp only [findCandidatesAux]
      by_cases hcond :
          (eligiblePR cfg d q && !(seen.contains q.headRefName)) = true
      · rw [if_pos hcond]
        rcases List.mem_cons.mp hmem with h1 | h2
        · subst h1
          exact Or.inr ⟨toCandidate pr, List.mem_cons_self _ _, rfl⟩
        · rcases ih (q.headRefName :: seen) pr h2 he with hin | ⟨c, hc, hcn⟩
          · rcases List.mem_cons.mp hin with hq | hs
            · exact Or.inr ⟨toCandidate q, List.mem_cons_self _ _,
                by simp [toCandidate, hq]⟩
            · exact Or.inl hs
          · exact Or.inr ⟨c, List.mem_cons_of_mem _ hc, hcn⟩
      · rw [if_neg hcond]
        rcases List.mem_cons.mp hmem with h1 | h2
        · subst h1
          have hseen : pr.headRefName ∈ seen := by
            by_contra hmm
            exact hcond (by simp [he, hmm])
          exact Or.inl hseen
        · exact ih seen pr h2 he

/-- `charsLe` is reflexive. -/
theorem charsLe_refl : ∀ l : List Char, charsLe l l = true := by
  intro l
  induction l with
  | nil => rfl
  | cons c cs ih => simp [charsLe, ih]

/-- In a list sorted weakly descending by a key, `find?` returns a
key-maximal element among all matches. -/
theorem find?_key_maximal {α : Type} (key : α → List Char) (p : α → Bool) :
    ∀ (l : List α), l.Pairwise (fun x y => charsLe (key y) (key x) = true) →
      ∀ a, l.find? p = some a → ∀ b ∈ l, p b = true →
        charsLe (key b) (key a) = true := by
  intro l
  induction l with
  | nil => intro _ a ha; simp at ha
  | cons x xs ih =>
      intro hpair a ha b hb hpb
      obtain ⟨hx, hxs⟩ := List.pairwise_cons.mp hpair
      cases hpx : p x with
      | true =>
          rw [List.find?_cons_of_pos _ hpx] at ha
          obtain rfl : x = a := by simpa using ha
          rcases List.mem_cons.mp hb with h1 | h2
          · exact h1 ▸ charsLe_refl _
          · exact hx b h2
      | false =>
          rw [List.find?_cons_of_neg] at ha
          · rcases List.mem_cons.mp hb with h1 | h2
            · subst h1; rw [hpb] at hpx; exact absurd hpx (by simp)
            · exact ih hxs a ha b h2 hpb
          · simp [hpx]

/-- C4 counterexample: two merged PRs share the head branch `bot/update`;
`prNew` (number 2) merged five months after `prOld` (number 1), yet when the
API list order puts `prOld` first — legitimate, since `getMergedPRs` orders
by `UPDATED_AT`, not by merge time — the retained candidate is built from
`prOld`: the most recently merged PR does NOT win. -/
theorem claim4_counterexample :
    findCandidates cfgBot "main" [prOld, prNew] = [toCandidate prOld] ∧
    (toCandidate prOld).prNumber = some 1 ∧
    eligiblePR cfgBot "main" prNew = true ∧
    prNew.headRefName = (toCandidate prOld).branchName ∧
    mergedLe (toCandidate prOld).mergedAt prNew.mergedAt = true ∧
    mergedLe prNew.mergedAt (toCandidate prOld).mergedAt = false := by
  decide

/-- C4 as amended: within one repository pass candidates are deduplicated by
branch name — (i) emitted branch names are pairwise distinct, (ii) each
retained candidate comes from the FIRST eligible PR with its branch name in
the order `getMergedPRs` returned (the API orders by update recency, not
merge recency), (iii) every eligible PR is represented, and (iv) only when
that list order is weakly descending in `mergedAt` is the retained candidate
the most recently merged one. -/
theorem claim4_dedup_by_name_first_eligible_retained :
    (∀ (cfg : Config) (d : String) (prs : List MergedPR),
        ((findCandidates cfg d prs).map (fun c => c.branchName)).Nodup) ∧
    (∀ (cfg : Config) (d : String) (prs : List MergedPR)
        (c : BranchCandidate), c ∈ findCandidates cfg d prs →
        ∃ pr, (prs.filter (eligiblePR cfg d)).find?
            (fun q => q.headRefName == c.branchName) = some pr ∧
          c = toCandidate pr) ∧
    (∀ (cfg : Config) (d : String) (prs : List MergedPR) (pr : MergedPR),
        pr ∈ prs → eligiblePR cfg d pr = true →
        ∃ c ∈ findCandidates cfg d prs, c.branchName = pr.headRefName) ∧
    (∀ (cfg : Config) (d : String) (prs : List MergedPR),
        (prs.filter (eligiblePR cfg d)).Pairwise
          (fun x y => mergedLe y.mergedAt x.mergedAt = true) →
        ∀ c ∈ findCandidates cfg d prs, ∀ pr ∈ prs,
          eligiblePR cfg d pr = true → pr.headRefName = c.branchName →
          mergedLe pr.mergedAt c.mergedAt = true) := by
  refine ⟨?_, ?_, ?_, ?_⟩
  · intro cfg d prs
    exact findCandidatesAux_names_nodup cfg d prs []
  · intro cfg d prs c hc
    exact (findCandidatesAux_find cfg d prs [] c hc).2
  · intro cfg d prs pr hmem he
    rcases findCandidatesAux_complete cfg d prs [] pr hmem he with h | h
    · exact absurd h (List.not_mem_nil _)
    · exact h
  · intro cfg d prs hsorted c hc pr hpr he hname
    obtain ⟨pr0, hfind, hcand⟩ := (findCandidatesAux_find cfg d prs [] c hc).2
    have hb : pr ∈ prs.filter (eligiblePR cfg d) :=
      List.mem_filter.mpr ⟨hpr, he⟩
    have hp : (fun q => q.headRefName == c.branchName) pr = true := by
      simp [hname]
    have hle := find?_key_maximal (fun q => (mergedKey q.mergedAt).data) _ _
      (by simpa [mergedLe] using hsorted) pr0 hfind pr hb hp
    rw [hcand]
    simpa [toCandidate, mergedLe] using hle

/-- Witness for C4-as-amended: with the list in merge-descending order
`[prNew, prOld]`, the retained candidate is built from `prNew` and its
merge timestamp dominates `prOld`'s. -/
theorem claim4_dedup_by_name_first_eligible_retained_witness :
    ((findCandidates cfgBot "main" [prNew, prOld]).map
      (fun c => c.branchName)).Nodup ∧
    mergedLe prOld.mergedAt (toCandidate prNew).mergedAt = true :=
  ⟨claim4_dedup_by_name_first_eligible_retained.1 cfgBot "main"
      [prNew, prOld],
    claim4_dedup_by_name_first_eligible_retained.2.2.2 cfgBot "main"
      [prNew, prOld] (by decide) (toCandidate prNew) (by decide) prOld
      (by decide) (by decide) (by decide)⟩

end BranchCleanup
